import Mathlib

/-!
Verification development for the IAB330 AMS Raspberry-Pi telemetry pipeline.

The definitions below are shallow embeddings of the Python sources under
`raspberrypi/`:

* `feature_extractor.py` — `sstats`, `_feats`, `compute_features`
  (floating-point values are modelled as real numbers);
* `inference.py` — `_FallbackModel.predict` and the engine's label map
  (rows are modelled as lists of rationals, since the fallback model only
  compares and never takes square roots);
* `pi_central.py` — `window_size`, `add_sample`, and the raw branch of the
  BLE `consumer` (timestamps modelled as rationals, byte strings as lists
  of naturals below 256);
* `mongo_upload.py` — `MongoSink.insert_batch` and `MongoSink.flush_backlog`,
  with the remote store and the backlog directory made explicit as state,
  together with the per-sink flush logic of `maybe_upload`.
-/

namespace AMS

/-! ### Feature extractor (`feature_extractor.py`) -/

/-- A 3-axis vector in physical units, the normalized form produced by
`_to_vec3_dict` / `_get_vec3`. -/
structure Vec3 where
  x : ℝ
  y : ℝ
  z : ℝ

/-- One motion sample: acceleration and angular-rate vectors. -/
structure Sample where
  accel : Vec3
  gyro : Vec3

/-- `np.mean` of a series. -/
noncomputable def mean (v : List ℝ) : ℝ := v.sum / v.length

/-- `np.std(v, ddof=1)`: sample standard deviation with Bessel correction. -/
noncomputable def sampleStd (v : List ℝ) : ℝ :=
  Real.sqrt ((v.map (fun t => (t - mean v) ^ 2)).sum / ((v.length : ℝ) - 1))

/-- `np.min` on a non-empty series (0 on the empty series, which `sstats`
never reaches because of its emptiness guard). -/
noncomputable def listMin : List ℝ → ℝ
  | [] => 0
  | t :: ts => ts.foldl min t

/-- `np.max`, analogous to `listMin`. -/
noncomputable def listMax : List ℝ → ℝ
  | [] => 0
  | t :: ts => ts.foldl max t

/-- `sstats` from `feature_extractor.py`: `[mean, std, min, max]`, with the
std forced to 0 for series of size ≤ 1 and all-zero stats for an empty
series. -/
noncomputable def sstats (v : List ℝ) : List ℝ :=
  if v.length = 0 then [0, 0, 0, 0]
  else [mean v, if 1 < v.length then sampleStd v else 0, listMin v, listMax v]

/-- The per-sample acceleration magnitude channel `amag`. -/
noncomputable def amagList (samples : List Sample) : List ℝ :=
  samples.map fun s => Real.sqrt (s.accel.x ^ 2 + s.accel.y ^ 2 + s.accel.z ^ 2)

/-- The per-sample gyro magnitude channel `gmag`. -/
noncomputable def gmagList (samples : List Sample) : List ℝ :=
  samples.map fun s => Real.sqrt (s.gyro.x ^ 2 + s.gyro.y ^ 2 + s.gyro.z ^ 2)

/-- `_feats`: 5 channels (ax, ay, az, amag, gmag) × 4 stats = 20 features. -/
noncomputable def feats (samples : List Sample) : List ℝ :=
  sstats (samples.map (fun s => s.accel.x)) ++
  sstats (samples.map (fun s => s.accel.y)) ++
  sstats (samples.map (fun s => s.accel.z)) ++
  sstats (amagList samples) ++
  sstats (gmagList samples)

/-- A window mapping `{"wrist": [...], "ankle": [...]}`; a `none` slot models
a key absent from the dict. -/
structure Window where
  wrist : Option (List Sample)
  ankle : Option (List Sample)

/-- One limb's contribution in `compute_features`: real features when the
limb is present with at least one sample, otherwise `[0.0]*20`. -/
noncomputable def slotFeatures (o : Option (List Sample)) : List ℝ :=
  match o with
  | some samples => if 0 < samples.length then feats samples else List.replicate 20 0
  | none => List.replicate 20 0

/-- `compute_features`: wrist slot followed by ankle slot, 40 floats. -/
noncomputable def compute_features (w : Window) : List ℝ :=
  slotFeatures w.wrist ++ slotFeatures w.ankle

/-- A limb key is present in the window dict with a non-empty sample list
(the condition `limb in window and len(window[limb]) > 0`). -/
def presentNonempty (o : Option (List Sample)) : Prop :=
  ∃ l, o = some l ∧ l ≠ []

/-! ### Fallback classifier (`inference.py`) -/

/-- `_FallbackModel.predict` on one feature row. Python indexes `row[13]`
directly (the claims only use rows long enough for this to be in range, so
the out-of-range default 0 of `getD` is never exercised); `row[33]` is
guarded by `len(row) > 33` exactly as in the source. Returns the class
index 0/1/2. -/
def fallbackPredict (row : List ℚ) : ℕ :=
  let wristAmStd := row.getD 13 0
  let ankleAmStd := if 33 < row.length then row.getD 33 0 else wristAmStd
  let m := max wristAmStd ankleAmStd
  if m < 0.15 then 0 else if m < 0.50 then 1 else 2

/-- The engine's `label_map.get(y, str(y))` with the default map
`{0: "Idle", 1: "Walking", 2: "Running"}`. -/
def labelMap (y : ℕ) : String :=
  if y = 0 then "Idle" else if y = 1 then "Walking" else if y = 2 then "Running"
  else toString y

/-- The label produced by the fallback path of `predict_window`. -/
def fallbackLabel (row : List ℚ) : String := labelMap (fallbackPredict row)

/-- Test fixture: a 40-entry feature row with value `a` at index 13 (wrist
accel-magnitude std) and `b` at index 33 (ankle accel-magnitude std), zero
elsewhere. -/
def mkRow (a b : ℚ) : List ℚ :=
  (List.range 40).map fun i => if i = 13 then a else if i = 33 then b else 0

/-! ### Window sizing and the raw-sample path (`pi_central.py`) -/

/-- Python's `int()` applied to a (model) real value: truncation toward
zero, i.e. floor for non-negative arguments and ceiling for negative
ones. -/
def pyInt (q : ℚ) : ℤ := if 0 ≤ q then ⌊q⌋ else ⌈q⌉

/-- `window_size = max(1, int(WINDOW_SECONDS * FS_HZ))`. -/
def windowSize (fs : ℤ) (ws : ℚ) : ℤ := max 1 (pyInt (ws * (fs : ℚ)))

/-- Python's `buffer[-max_keep:]`: the last `maxKeep` elements, with the
slicing quirk that `buffer[-0:]` is the whole list. -/
def pyLastSlice (maxKeep : ℕ) (l : List Sample) : List Sample :=
  if maxKeep = 0 then l else l.drop (l.length - maxKeep)

/-- The retention step of `add_sample`: truncate only when the buffer
exceeds `max_keep`. -/
def keepRecent (maxKeep : ℕ) (l : List Sample) : List Sample :=
  if maxKeep < l.length then pyLastSlice maxKeep l else l

/-- The consumer-side pipeline state touched by the raw path: the two
per-device buffers, the `last_raw_ts` entries, and the `sensor_batch` of
raw documents (stored as device-tag/sample pairs; `SAVE_RAW` gates the
append). Timestamps are modelled as rationals. -/
structure PipeState where
  wrist : List Sample
  ankle : List Sample
  lastRawWrist : ℚ
  lastRawAnkle : ℚ
  sensorBatch : List (String × Sample)

/-- `add_sample` from `pi_central.py`, parameterized by the window size `N`
(`max_keep = window_size * 3`), the `SAVE_RAW` flag and the current time:
unknown devices are ignored, the sample is appended, `last_raw_ts` is
stamped, the buffer is truncated to the retention cap, and (when
`SAVE_RAW`) a raw document is appended to `sensor_batch`. -/
def addSample (N : ℕ) (saveRaw : Bool) (now : ℚ) (device : String) (s : Sample)
    (st : PipeState) : PipeState :=
  if device = "wrist" then
    { st with
      wrist := keepRecent (N * 3) (st.wrist ++ [s])
      lastRawWrist := now
      sensorBatch := if saveRaw then st.sensorBatch ++ [(device, s)] else st.sensorBatch }
  else if device = "ankle" then
    { st with
      ankle := keepRecent (N * 3) (st.ankle ++ [s])
      lastRawAnkle := now
      sensorBatch := if saveRaw then st.sensorBatch ++ [(device, s)] else st.sensorBatch }
  else st

/-- One signed little-endian 16-bit integer decoded from two bytes,
exactly as `struct.unpack("<6h", ...)` treats each pair. -/
def decodeInt16 (b0 b1 : ℕ) : ℤ :=
  if b0 + 256 * b1 < 32768 then ((b0 + 256 * b1 : ℕ) : ℤ)
  else ((b0 + 256 * b1 : ℕ) : ℤ) - 65536

/-- The consumer's decode of a raw payload: consecutive byte pairs become
signed 16-bit integers divided by 1000. -/
def decodeVals : List ℕ → List ℚ
  | b0 :: b1 :: rest => (decodeInt16 b0 b1 : ℚ) / 1000 :: decodeVals rest
  | _ => []

/-- The sample built at `pi_central.py` lines 265–269 from the six decoded
values (accel x,y,z then gyro x,y,z). -/
noncomputable def sampleOfVals (vals : List ℚ) : Sample :=
  { accel := ⟨(vals.getD 0 0 : ℝ), (vals.getD 1 0 : ℝ), (vals.getD 2 0 : ℝ)⟩
    gyro := ⟨(vals.getD 3 0 : ℝ), (vals.getD 4 0 : ℝ), (vals.getD 5 0 : ℝ)⟩ }

/-- The consumer's `last_raw_ts[node] = time.time()` after `add_sample`
(the nodes enqueued by `ble_receiver.py` are exactly "wrist" and
"ankle"). -/
def setLastRaw (node : String) (now : ℚ) (st : PipeState) : PipeState :=
  if node = "wrist" then { st with lastRawWrist := now }
  else if node = "ankle" then { st with lastRawAnkle := now }
  else st

/-- The `stream == "raw"` branch of the BLE consumer: a payload whose
length is not exactly 12 is dropped (`continue`) before any state is
touched; otherwise the payload is decoded, handed to `add_sample`, and the
device's last-raw timestamp is stamped. -/
noncomputable def handleRaw (N : ℕ) (saveRaw : Bool) (now : ℚ) (node : String)
    (payload : List ℕ) (st : PipeState) : PipeState :=
  if payload.length ≠ 12 then st
  else setLastRaw node now
    (addSample N saveRaw now node (sampleOfVals (decodeVals payload)) st)

/-- A stream of raw packets `(arrival time, node, payload)` folded through
the consumer's raw branch. -/
noncomputable def processRaws (N : ℕ) (saveRaw : Bool) :
    List (ℚ × String × List ℕ) → PipeState → PipeState
  | [], st => st
  | (now, node, payload) :: rest, st =>
    processRaws N saveRaw rest (handleRaw N saveRaw now node payload st)

/-- Modelled from the spec: the wearable firmware's encoder for one axis
value is not part of this repository (only the Arduino side produces raw
packets); §6 of the spec fixes the wire format as six signed little-endian
16-bit integers in 1e-3 units, so a value is scaled by 1000, rounded to
the nearest integer, and serialized as two little-endian bytes of its
16-bit two's-complement representation. -/
def int16ToBytes (n : ℤ) : List ℕ :=
  [(n % 65536).toNat % 256, (n % 65536).toNat / 256]

/-- Modelled from the spec: encode one physical-unit value onto the wire. -/
def encodeVal (v : ℚ) : List ℕ := int16ToBytes (round (v * 1000))

/-- Modelled from the spec: a whole raw sample (six values) encoded as a
12-byte payload. -/
def encodeSample : List ℚ → List ℕ
  | [] => []
  | v :: rest => encodeVal v ++ encodeSample rest

/-! ### Resilient batch uploader (`mongo_upload.py`, `maybe_upload`) -/

/-- Documents are abstract; only identity matters to the uploader. -/
abbrev Doc := ℕ

/-- The outcome of one `insert_many` call against the remote store:
either full success, or an exception after `k` documents were already
durably written (`fail 0` is a clean outage). -/
inductive WriteOutcome where
  | ok : WriteOutcome
  | fail : ℕ → WriteOutcome
deriving DecidableEq

/-- The observable state of one `MongoSink`: the documents durably in the
remote collection, and the backlog directory as a list of
(timestamp, contents) files. -/
structure SinkState where
  remote : List Doc
  files : List (ℕ × List Doc)
deriving DecidableEq

/-- Writing a batch to `backlog_{ts}.ndjson` (opened with mode "a": the
batch is appended if a file for that timestamp already exists, otherwise a
new file is created). -/
def appendFile (files : List (ℕ × List Doc)) (ts : ℕ) (docs : List Doc) :
    List (ℕ × List Doc) :=
  if files.any (fun f => f.1 == ts) then
    files.map (fun f => if f.1 == ts then (f.1, f.2 ++ docs) else f)
  else files ++ [(ts, docs)]

/-- `MongoSink.insert_batch`: empty batches return immediately; a
successful `insert_many` lands the batch in the remote store; a failing
one (after `k` partial writes) catches the exception and writes the whole
batch to one timestamped backlog file. The method itself never raises. -/
def insertBatch (o : WriteOutcome) (ts : ℕ) (docs : List Doc) (s : SinkState) :
    SinkState :=
  if docs = [] then s
  else
    match o with
    | .ok => { s with remote := s.remote ++ docs }
    | .fail k => { remote := s.remote ++ docs.take k, files := appendFile s.files ts docs }

/-- The per-file loop of `MongoSink.flush_backlog`, with `f` giving the
`insert_many` outcome for each file (keyed by its timestamp): an empty
file is deleted without an insert; a successful insert appends the file's
contents to the remote store and deletes the file; a failing insert leaves
the file in place (the per-file `except: pass`) and moves on. Returns the
surviving files and the remote store contents. -/
def flushFiles (f : ℕ → WriteOutcome) :
    List (ℕ × List Doc) → List Doc → List (ℕ × List Doc) × List Doc
  | [], remote => ([], remote)
  | (ts, docs) :: rest, remote =>
    if docs = [] then flushFiles f rest remote
    else
      match f ts with
      | .ok => flushFiles f rest (remote ++ docs)
      | .fail k =>
        let r := flushFiles f rest (remote ++ docs.take k)
        ((ts, docs) :: r.1, r.2)

/-- `MongoSink.flush_backlog` as a state transformer. -/
def flushBacklog (f : ℕ → WriteOutcome) (s : SinkState) : SinkState :=
  { files := (flushFiles f s.files s.remote).1
    remote := (flushFiles f s.files s.remote).2 }

/-- One sink together with its in-memory batch (`sensor_batch` or
`pred_batch` in `pi_central.py`). -/
structure UploaderState where
  sink : SinkState
  batch : List Doc
deriving DecidableEq

/-- One sink's turn inside `maybe_upload` (interval gate already passed):
nothing happens on an empty batch; otherwise `insert_batch` runs (never
raising — remote failure is swallowed after the backlog write), then
`flush_backlog`, then the batch is cleared (`sensor_batch = []`, reached
because no exception propagated). -/
def flushTick (o : WriteOutcome) (f : ℕ → WriteOutcome) (ts : ℕ)
    (u : UploaderState) : UploaderState :=
  if u.batch = [] then u
  else
    { sink := flushBacklog f (insertBatch o ts u.batch u.sink), batch := [] }

/-! ### Concrete fixtures used by the witnesses -/

/-- An all-zero sample. -/
def sample0 : Sample := ⟨⟨0, 0, 0⟩, ⟨0, 0, 0⟩⟩

/-- An empty pipeline state. -/
def pipe0 : PipeState := ⟨[], [], 0, 0, []⟩

/-! ### Helper lemmas -/

theorem mkRow_length (a b : ℚ) : (mkRow a b).length = 40 := by
  simp [mkRow]

theorem mkRow_getD_13 (a b : ℚ) : (mkRow a b).getD 13 0 = a := by
  simp [mkRow, List.getD_eq_getElem?_getD, List.getElem?_map, List.getElem?_range]

theorem mkRow_getD_33 (a b : ℚ) : (mkRow a b).getD 33 0 = b := by
  simp [mkRow, List.getD_eq_getElem?_getD, List.getElem?_map, List.getElem?_range]

theorem keepRecent_length (k : ℕ) (hk : 0 < k) (l : List Sample) :
    (keepRecent k l).length = min l.length k := by
  unfold keepRecent pyLastSlice
  split_ifs with h1 h2
  · omega
  · rw [List.length_drop]
    omega
  · omega

theorem keepRecent_suffix (k : ℕ) (l : List Sample) : keepRecent k l <:+ l := by
  unfold keepRecent pyLastSlice
  split_ifs with h1 h2
  · exact List.suffix_refl l
  · exact List.drop_suffix _ l
  · exact List.suffix_refl l

/-! ### Claims -/

/-- C10: for every single-element series, `sstats` returns 0 as the sample
standard deviation (0, not NaN and not an error, since the model lives in
ℝ), while mean, min and max are the single element itself. -/
theorem sstats_single (x : ℝ) : sstats [x] = [x, 0, x, x] := by
  norm_num [sstats, mean, listMin, listMax]

/-- C6 counterexample: at `FS_HZ = 3`, `WINDOW_SECONDS = 0.5` (an exactly
representable float, so the Python product is exactly 1.5), the code's
`max(1, int(1.5))` gives 1 while the claimed `round` formula gives 2. -/
theorem window_size_round_cex :
    windowSize 3 (1 / 2) ≠ max 1 (round ((1 / 2 : ℚ) * ((3 : ℤ) : ℚ))) := by
  have hprod : ((1 : ℚ) / 2 * ((3 : ℤ) : ℚ)) = 3 / 2 := by norm_num
  have hfloor : ⌊(3 / 2 : ℚ)⌋ = 1 := by norm_num [Int.floor_eq_iff]
  have hround : round ((3 / 2 : ℚ)) = 2 := by norm_num [round_eq]
  have hcode : windowSize 3 (1 / 2) = 1 := by
    rw [windowSize, pyInt, hprod, if_pos (by norm_num), hfloor]
    omega
  rw [hcode, hprod, hround]
  omega

/-- C6 amended: the per-device window size is
`max(1, trunc(window_seconds × sample_rate_hz))` — truncation toward zero
(equal to the floor on the non-negative products that arise from
configuration), not rounding to nearest. -/
theorem window_size_trunc (fs : ℤ) (ws : ℚ) (h : 0 ≤ ws * (fs : ℚ)) :
    windowSize fs ws = max 1 ⌊ws * (fs : ℚ)⌋ ∧ 1 ≤ windowSize fs ws := by
  unfold windowSize pyInt
  rw [if_pos h]
  exact ⟨rfl, le_max_left _ _⟩

theorem window_size_trunc_witness :
    windowSize 100 2 = max 1 ⌊(2 : ℚ) * ((100 : ℤ) : ℚ)⌋ ∧ 1 ≤ windowSize 100 2 :=
  window_size_trunc 100 2 (by norm_num)

/-- C2: on every feature row (long enough for index 33, as all 40-float
rows are), the fallback classifier takes the larger of indices 13 and 33
and labels it Idle strictly below 0.15, Walking strictly below 0.50, and
Running otherwise; in particular 0.10/0.05 ↦ Idle, 0.30/0.20 ↦ Walking,
0.60/0.10 ↦ Running. -/
theorem fallback_thresholds (row : List ℚ) (h : 33 < row.length) :
    (fallbackLabel row =
      if max (row.getD 13 0) (row.getD 33 0) < 0.15 then "Idle"
      else if max (row.getD 13 0) (row.getD 33 0) < 0.50 then "Walking"
      else "Running")
    ∧ fallbackLabel (mkRow 0.10 0.05) = "Idle"
    ∧ fallbackLabel (mkRow 0.30 0.20) = "Walking"
    ∧ fallbackLabel (mkRow 0.60 0.10) = "Running" := by
  have key : ∀ r : List ℚ, 33 < r.length → fallbackLabel r =
      (if max (r.getD 13 0) (r.getD 33 0) < 0.15 then "Idle"
       else if max (r.getD 13 0) (r.getD 33 0) < 0.50 then "Walking"
       else "Running") := by
    intro r hr
    have hp : fallbackPredict r =
        (if max (r.getD 13 0) (r.getD 33 0) < 0.15 then 0
         else if max (r.getD 13 0) (r.getD 33 0) < 0.50 then 1 else 2) := by
      simp only [fallbackPredict, if_pos hr]
    rw [fallbackLabel, hp]
    split_ifs <;> rfl
  have h40 : ∀ a b : ℚ, 33 < (mkRow a b).length := by
    intro a b
    rw [mkRow_length]
    norm_num
  refine ⟨key row h, ?_, ?_, ?_⟩
  · rw [key _ (h40 _ _), mkRow_getD_13, mkRow_getD_33,
      max_eq_left (by norm_num : (0.05 : ℚ) ≤ 0.10), if_pos (by norm_num)]
  · rw [key _ (h40 _ _), mkRow_getD_13, mkRow_getD_33,
      max_eq_left (by norm_num : (0.20 : ℚ) ≤ 0.30), if_neg (by norm_num),
      if_pos (by norm_num)]
  · rw [key _ (h40 _ _), mkRow_getD_13, mkRow_getD_33,
      max_eq_left (by norm_num : (0.10 : ℚ) ≤ 0.60), if_neg (by norm_num),
      if_neg (by norm_num)]

theorem fallback_thresholds_witness : fallbackLabel (mkRow 0.10 0.05) = "Idle" :=
  (fallback_thresholds (mkRow 0.10 0.05) (by rw [mkRow_length]; norm_num)).2.1

/-- C5 counterexample: with one queued document and the remote store down,
a timed flush does NOT leave the in-memory batch in place — the batch is
written to the backlog file and then cleared (`insert_batch` swallows the
remote failure, so `maybe_upload` reaches `sensor_batch = []`). -/
theorem flush_keeps_batch_cex :
    ¬ (flushTick (.fail 0) (fun _ => .fail 0) 7 ⟨⟨[], []⟩, [0]⟩).batch = [0] := by
  decide

/-- C5 amended: on a timed flush, success clears the batch and lands it in
the remote store; failure of the remote write puts the whole batch into
one timestamped backlog file and ALSO clears the in-memory batch — the
later retry happens from the backlog file, not from the in-memory batch. -/
theorem flush_clears_batch (u : UploaderState) (ts : ℕ) (h : u.batch ≠ [])
    (hf : u.sink.files = []) :
    ((flushTick .ok (fun _ => .ok) ts u).batch = []
      ∧ (flushTick .ok (fun _ => .ok) ts u).sink.remote = u.sink.remote ++ u.batch
      ∧ (flushTick .ok (fun _ => .ok) ts u).sink.files = [])
    ∧ ((flushTick (.fail 0) (fun _ => .fail 0) ts u).batch = []
      ∧ (flushTick (.fail 0) (fun _ => .fail 0) ts u).sink.files = [(ts, u.batch)]
      ∧ (flushTick (.fail 0) (fun _ => .fail 0) ts u).sink.remote = u.sink.remote) := by
  simp [flushTick, insertBatch, flushBacklog, flushFiles, appendFile, h, hf]

theorem flush_clears_batch_witness :
    ((flushTick (.fail 0) (fun _ => .fail 0) 7 ⟨⟨[], []⟩, [0]⟩).batch = []
      ∧ (flushTick (.fail 0) (fun _ => .fail 0) 7 ⟨⟨[], []⟩, [0]⟩).sink.files = [(7, [0])]
      ∧ (flushTick (.fail 0) (fun _ => .fail 0) 7 ⟨⟨[], []⟩, [0]⟩).sink.remote = []) :=
  (flush_clears_batch ⟨⟨[], []⟩, [0]⟩ 7 (by decide) rfl).2

/-- C3: when the remote write fails during a flush of a non-empty batch
(no backlog present beforehand), exactly one backlog file is created
holding every document of the batch, the in-memory batch is emptied, and
the next successful flush (with new batch `docs2`) sends the backlogged
documents exactly once — no duplication. -/
theorem failed_flush_backlogs_once (r0 docs docs2 : List Doc) (ts ts2 : ℕ)
    (h1 : docs ≠ []) (h2 : docs2 ≠ []) :
    let u1 := flushTick (.fail 0) (fun _ => .fail 0) ts ⟨⟨r0, []⟩, docs⟩
    let u2 := flushTick .ok (fun _ => .ok) ts2 ⟨u1.sink, docs2⟩
    (u1.sink.files = [(ts, docs)] ∧ u1.batch = [] ∧ u1.sink.remote = r0)
    ∧ (u2.sink.remote = r0 ++ docs2 ++ docs ∧ u2.sink.files = [] ∧ u2.batch = []) := by
  simp [flushTick, insertBatch, flushBacklog, flushFiles, appendFile, h1, h2,
    List.append_assoc]

theorem failed_flush_backlogs_once_witness :
    let u1 := flushTick (.fail 0) (fun _ => .fail 0) 5 ⟨⟨[], []⟩, [0]⟩
    let u2 := flushTick .ok (fun _ => .ok) 6 ⟨u1.sink, [1]⟩
    (u1.sink.files = [(5, [0])] ∧ u1.batch = [] ∧ u1.sink.remote = [])
    ∧ (u2.sink.remote = [] ++ [1] ++ [0] ∧ u2.sink.files = [] ∧ u2.batch = []) :=
  failed_flush_backlogs_once [] [0] [1] 5 6 (by decide) (by decide)

/-- C7: after `add_sample`, the touched device holds the most recent
samples in order (a suffix of the old buffer plus the new sample) with
length `min (old+1) (3N)`, the other device is untouched, and buffers at
or below the retention cap stay at or below it. -/
theorem add_sample_retention (N : ℕ) (hN : 1 ≤ N) (sr : Bool) (now : ℚ)
    (dev : String) (s : Sample) (st : PipeState)
    (hw : st.wrist.length ≤ N * 3) (ha : st.ankle.length ≤ N * 3) :
    ((addSample N sr now dev s st).wrist.length ≤ N * 3
      ∧ (addSample N sr now dev s st).ankle.length ≤ N * 3)
    ∧ (dev = "wrist" →
        (addSample N sr now dev s st).wrist <:+ st.wrist ++ [s]
        ∧ (addSample N sr now dev s st).wrist.length = min (st.wrist.length + 1) (N * 3)
        ∧ (addSample N sr now dev s st).ankle = st.ankle)
    ∧ (dev = "ankle" →
        (addSample N sr now dev s st).ankle <:+ st.ankle ++ [s]
        ∧ (addSample N sr now dev s st).ankle.length = min (st.ankle.length + 1) (N * 3)
        ∧ (addSample N sr now dev s st).wrist = st.wrist) := by
  have hk : 0 < N * 3 := by omega
  by_cases h1 : dev = "wrist"
  · refine ⟨⟨?_, ?_⟩, fun _ => ⟨?_, ?_, ?_⟩, fun h2 => ?_⟩
    · simp only [addSample, if_pos h1]
      rw [keepRecent_length _ hk]
      omega
    · simp only [addSample, if_pos h1]
      exact ha
    · simp only [addSample, if_pos h1]
      exact keepRecent_suffix _ _
    · simp only [addSample, if_pos h1]
      rw [keepRecent_length _ hk, List.length_append, List.length_singleton]
    · simp only [addSample, if_pos h1]
    · rw [h1] at h2
      exact absurd h2 (by decide)
  · by_cases h2 : dev = "ankle"
    · refine ⟨⟨?_, ?_⟩, fun h1' => ?_, fun _ => ⟨?_, ?_, ?_⟩⟩
      · simp only [addSample, if_neg h1, if_pos h2]
        exact hw
      · simp only [addSample, if_neg h1, if_pos h2]
        rw [keepRecent_length _ hk]
        omega
      · rw [h2] at h1'
        exact absurd h1' (by decide)
      · simp only [addSample, if_neg h1, if_pos h2]
        exact keepRecent_suffix _ _
      · simp only [addSample, if_neg h1, if_pos h2]
        rw [keepRecent_length _ hk, List.length_append, List.length_singleton]
      · simp only [addSample, if_neg h1, if_pos h2]
    · simp only [addSample, if_neg h1, if_neg h2]
      exact ⟨⟨hw, ha⟩, fun hc => absurd hc h1, fun hc => absurd hc h2⟩

theorem add_sample_retention_witness :
    (addSample 1 false 0 "wrist" sample0 pipe0).wrist.length ≤ 1 * 3
    ∧ (addSample 1 false 0 "wrist" sample0 pipe0).ankle.length ≤ 1 * 3 :=
  (add_sample_retention 1 (by decide) false 0 "wrist" sample0 pipe0
    (by decide) (by decide)).1

theorem sstats_length (v : List ℝ) : (sstats v).length = 4 := by
  unfold sstats
  split_ifs <;> rfl

theorem feats_length (samples : List Sample) : (feats samples).length = 20 := by
  simp [feats, sstats_length]

theorem slotFeatures_length (o : Option (List Sample)) :
    (slotFeatures o).length = 20 := by
  cases o with
  | none => rfl
  | some l =>
    simp only [slotFeatures]
    split_ifs
    · exact feats_length l
    · rfl

theorem slotFeatures_absent (o : Option (List Sample))
    (h : ¬ presentNonempty o) : slotFeatures o = List.replicate 20 0 := by
  cases o with
  | none => rfl
  | some l =>
    have hl : l = [] := by
      by_contra hne
      exact h ⟨l, rfl, hne⟩
    subst hl
    rfl

/-- C1: for every window with at least one device present holding at least
one sample, `compute_features` yields exactly 40 floats, and a device
absent from the window (or present with an empty sample list) contributes
exactly 20 zeros in its slot: positions 0–19 for the wrist, 20–39 for the
ankle. -/
theorem compute_features_shape (w : Window)
    (h : presentNonempty w.wrist ∨ presentNonempty w.ankle) :
    (compute_features w).length = 40
    ∧ (¬ presentNonempty w.wrist →
        (compute_features w).take 20 = List.replicate 20 (0 : ℝ))
    ∧ (¬ presentNonempty w.ankle →
        (compute_features w).drop 20 = List.replicate 20 (0 : ℝ)) := by
  refine ⟨?_, fun hw => ?_, fun ha => ?_⟩
  · simp [compute_features, slotFeatures_length]
  · rw [compute_features, List.take_left' (slotFeatures_length _),
      slotFeatures_absent _ hw]
  · rw [compute_features, List.drop_left' (slotFeatures_length _),
      slotFeatures_absent _ ha]

theorem compute_features_shape_witness :
    (compute_features ⟨some [sample0], none⟩).length = 40 :=
  (compute_features_shape ⟨some [sample0], none⟩
    (Or.inl ⟨[sample0], rfl, by simp⟩)).1

theorem flushFiles_remote_ext (f : ℕ → WriteOutcome) :
    ∀ (files : List (ℕ × List Doc)) (remote : List Doc),
      ∃ t, (flushFiles f files remote).2 = remote ++ t := by
  intro files
  induction files with
  | nil => exact fun remote => ⟨[], (List.append_nil remote).symm⟩
  | cons hd rest ih =>
    intro remote
    obtain ⟨ts, docs⟩ := hd
    simp only [flushFiles]
    by_cases hd0 : docs = []
    · rw [if_pos hd0]
      exact ih remote
    · rw [if_neg hd0]
      cases hf : f ts with
      | ok =>
        obtain ⟨t, ht⟩ := ih (remote ++ docs)
        exact ⟨docs ++ t, by rw [ht, List.append_assoc]⟩
      | fail k =>
        obtain ⟨t, ht⟩ := ih (remote ++ docs.take k)
        exact ⟨docs.take k ++ t, by rw [ht, List.append_assoc]⟩

theorem flushFiles_kept (f : ℕ → WriteOutcome) (ts : ℕ) (docs : List Doc)
    (hne : docs ≠ []) (k : ℕ) (hf : f ts = .fail k) :
    ∀ (files : List (ℕ × List Doc)) (remote : List Doc),
      (ts, docs) ∈ files → (ts, docs) ∈ (flushFiles f files remote).1 := by
  intro files
  induction files with
  | nil => exact fun remote h => absurd h (List.not_mem_nil _)
  | cons hd rest ih =>
    intro remote hmem
    obtain ⟨ts', docs'⟩ := hd
    rcases List.mem_cons.mp hmem with heq | hmem'
    · obtain ⟨h1, h2⟩ := Prod.mk.injEq .. ▸ heq
      subst h1
      subst h2
      simp only [flushFiles, if_neg hne, hf]
      exact List.mem_cons_self _ _
    · simp only [flushFiles]
      by_cases hd0 : docs' = []
      · rw [if_pos hd0]
        exact ih remote hmem'
      · rw [if_neg hd0]
        cases hf' : f ts' with
        | ok => exact ih _ hmem'
        | fail k' => exact List.mem_cons_of_mem _ (ih _ hmem')

theorem flushFiles_removed (f : ℕ → WriteOutcome) (ts : ℕ) (docs : List Doc) :
    ∀ (files : List (ℕ × List Doc)) (remote : List Doc),
      (ts, docs) ∈ files → (ts, docs) ∉ (flushFiles f files remote).1 →
        ∃ l₁ l₂, (flushFiles f files remote).2 = l₁ ++ docs ++ l₂ := by
  intro files
  induction files with
  | nil => exact fun remote h _ => absurd h (List.not_mem_nil _)
  | cons hd rest ih =>
    intro remote hmem hnot
    obtain ⟨ts', docs'⟩ := hd
    rcases List.mem_cons.mp hmem with heq | hmem'
    · obtain ⟨h1, h2⟩ := Prod.mk.injEq .. ▸ heq
      subst h1
      subst h2
      by_cases hd0 : docs = []
      · subst hd0
        simp only [flushFiles, if_pos rfl]
        exact ⟨(flushFiles f rest remote).2, [], by simp⟩
      · simp only [flushFiles, if_neg hd0] at hnot ⊢
        cases hf : f ts with
        | ok =>
          obtain ⟨t, ht⟩ := flushFiles_remote_ext f rest (remote ++ docs)
          exact ⟨remote, t, by rw [ht, List.append_assoc]⟩
        | fail k =>
          rw [hf] at hnot
          exact absurd (List.mem_cons_self _ _) hnot
    · simp only [flushFiles]
      by_cases hd0 : docs' = []
      · rw [if_pos hd0]
        rw [flushFiles, if_pos hd0] at hnot
        exact ih remote hmem' hnot
      · simp only [flushFiles, if_neg hd0] at hnot ⊢
        cases hf : f ts' with
        | ok =>
          rw [hf] at hnot
          exact ih _ hmem' hnot
        | fail k =>
          rw [hf] at hnot
          exact ih _ hmem' (fun hc => hnot (List.mem_cons_of_mem _ hc))

/-- C4: a backlog file is deleted by `flush_backlog` only if its entire
contents were appended (contiguously) to the remote store during that
sweep; if its `insert_many` fails — including failures after a partial
write — the file is left in place for a later retry, so none of its
documents are lost. -/
theorem backlog_replay_safe (f : ℕ → WriteOutcome) (s : SinkState) (ts : ℕ)
    (docs : List Doc) (hmem : (ts, docs) ∈ s.files) :
    ((ts, docs) ∉ (flushBacklog f s).files →
      ∃ l₁ l₂, (flushBacklog f s).remote = l₁ ++ docs ++ l₂)
    ∧ (∀ k, f ts = .fail k → docs ≠ [] → (ts, docs) ∈ (flushBacklog f s).files) :=
  ⟨fun hnot => flushFiles_removed f ts docs s.files s.remote hmem hnot,
   fun k hf hne => flushFiles_kept f ts docs hne k hf s.files s.remote hmem⟩

theorem backlog_replay_safe_witness :
    (3, [5]) ∈ (flushBacklog (fun _ => .fail 0) ⟨[], [(3, [5])]⟩).files :=
  (backlog_replay_safe (fun _ => .fail 0) ⟨[], [(3, [5])]⟩ 3 [5]
    (by decide)).2 0 rfl (by decide)

/-- C8: raw packets whose payload is not exactly 12 bytes are dropped by
the consumer before any state is touched: folding a packet stream through
the raw branch gives the same pipeline state (buffers, batches, last-raw
timestamps) as folding only its well-formed packets, and a single
malformed packet leaves the state literally unchanged (the total function
also witnesses that no exception is raised). -/
theorem consumer_drops_malformed (N : ℕ) (sr : Bool) (st : PipeState)
    (events : List (ℚ × String × List ℕ)) :
    processRaws N sr events st =
      processRaws N sr (events.filter fun e => e.2.2.length == 12) st
    ∧ ∀ (now : ℚ) (node : String) (payload : List ℕ) (st' : PipeState),
        payload.length ≠ 12 → handleRaw N sr now node payload st' = st' := by
  have hdrop : ∀ (now : ℚ) (node : String) (payload : List ℕ) (st' : PipeState),
      payload.length ≠ 12 → handleRaw N sr now node payload st' = st' := by
    intro now node payload st' h
    rw [handleRaw, if_pos h]
  refine ⟨?_, hdrop⟩
  induction events generalizing st with
  | nil => rfl
  | cons e rest ih =>
    obtain ⟨now, node, payload⟩ := e
    by_cases h : payload.length = 12
    · simp only [processRaws, List.filter_cons]
      rw [if_pos (by simpa using h)]
      simp only [processRaws]
      exact ih _
    · simp only [processRaws, List.filter_cons]
      rw [if_neg (by simpa using h), hdrop _ _ _ _ h]
      exact ih _

theorem consumer_drops_malformed_witness :
    handleRaw 1 false 0 "wrist" [1, 2, 3] pipe0 = pipe0 :=
  (consumer_drops_malformed 1 false pipe0 []).2 0 "wrist" [1, 2, 3] pipe0
    (by decide)

theorem decode_encode_int (n : ℤ) (h1 : -32768 ≤ n) (h2 : n ≤ 32767) :
    decodeInt16 ((n % 65536).toNat % 256) ((n % 65536).toNat / 256) = n := by
  unfold decodeInt16
  have hm : 0 ≤ n % 65536 := Int.emod_nonneg n (by norm_num)
  have hm2 : n % 65536 < 65536 := Int.emod_lt_of_pos n (by norm_num)
  have hdm := Nat.mod_add_div ((n % 65536).toNat) 256
  split_ifs with hlt
  · omega
  · omega

theorem round_range (v : ℚ) (h : |v| ≤ 32767 / 1000) :
    -32768 ≤ round (v * 1000) ∧ round (v * 1000) ≤ 32767 := by
  have h1 : |v * 1000| ≤ 32767 := by
    rw [abs_mul, abs_of_pos (by norm_num : (0 : ℚ) < 1000)]
    calc |v| * 1000 ≤ 32767 / 1000 * 1000 := by
          exact mul_le_mul_of_nonneg_right h (by norm_num)
      _ = 32767 := by norm_num
  have h2 := abs_sub_round (v * 1000)
  obtain ⟨h2a, h2b⟩ := abs_le.mp h2
  obtain ⟨h1a, h1b⟩ := abs_le.mp h1
  constructor
  · by_contra hc
    push_neg at hc
    have h3 : round (v * 1000) ≤ -32769 := by omega
    have h4 : ((round (v * 1000) : ℤ) : ℚ) ≤ -32769 := by exact_mod_cast h3
    linarith
  · by_contra hc
    push_neg at hc
    have h3 : (32768 : ℤ) ≤ round (v * 1000) := by omega
    have h4 : (32768 : ℚ) ≤ ((round (v * 1000) : ℤ) : ℚ) := by exact_mod_cast h3
    linarith

/-- C9: encoding a sample whose values fit the representable fixed-point
range (|v| ≤ 32.767 units) as six signed little-endian 16-bit integers of
thousandths and decoding with the consumer's unpack-and-divide-by-1000
recovers each value to within ±0.001 units; six values occupy exactly
12 bytes. -/
theorem wire_roundtrip (vs : List ℚ) (h : ∀ v ∈ vs, |v| ≤ 32767 / 1000) :
    List.Forall₂ (fun w v => |w - v| ≤ 1 / 1000) (decodeVals (encodeSample vs)) vs
    ∧ (encodeSample vs).length = 2 * vs.length := by
  induction vs with
  | nil => exact ⟨List.Forall₂.nil, rfl⟩
  | cons v rest ih =>
    have hv := h v (List.mem_cons_self _ _)
    obtain ⟨ihF, ihL⟩ := ih fun w hw => h w (List.mem_cons_of_mem _ hw)
    have hrange := round_range v hv
    constructor
    · have hdec : decodeVals (encodeSample (v :: rest))
          = ((round (v * 1000) : ℤ) : ℚ) / 1000 :: decodeVals (encodeSample rest) := by
        simp only [encodeSample, encodeVal, int16ToBytes, List.append_eq,
          List.cons_append, List.nil_append, decodeVals]
        rw [decode_encode_int _ hrange.1 hrange.2]
      rw [hdec]
      refine List.Forall₂.cons ?_ ihF
      have h2 := abs_sub_round (v * 1000)
      have heq : ((round (v * 1000) : ℤ) : ℚ) / 1000 - v
          = -((v * 1000) - ((round (v * 1000) : ℤ) : ℚ)) / 1000 := by ring
      rw [heq, abs_div, abs_neg, abs_of_pos (by norm_num : (0 : ℚ) < 1000)]
      linarith
    · simp only [encodeSample, encodeVal, int16ToBytes, List.append_eq,
        List.length_append, List.length_cons, List.length_nil, ihL]
      omega

theorem wire_roundtrip_witness :
    List.Forall₂ (fun w v => |w - v| ≤ 1 / 1000)
      (decodeVals (encodeSample [1, -2, 1 / 2, 3 / 1000, -32, 0]))
      [1, -2, 1 / 2, 3 / 1000, -32, 0]
    ∧ (encodeSample [1, -2, 1 / 2, 3 / 1000, -32, 0]).length = 2 * 6 :=
  wire_roundtrip [1, -2, 1 / 2, 3 / 1000, -32, 0] (by
    intro v hv
    simp only [List.mem_cons, List.not_mem_nil, or_false] at hv
    rcases hv with h | h | h | h | h | h <;> subst h <;> rw [abs_le] <;>
      constructor <;> norm_num)

end AMS
